import Mathlib

/-!
Shallow embedding of the caret-edge utilities of `src/blocks/block-controls/index.js`
(the DOM utility module: `isHorizontalEdge`, `getVerticalEdge`,
`placeCaretAtHorizontalEdge`, `caretRangeFromPoint`, `placeCaretAtVerticalEdge`).

Modelling conventions:
* A DOM node is identified by its path from the document root (the list of
  child indices); node identity (`===`) is path equality.
* Geometry (`getBoundingClientRect`, `getClientRects`) is layout data carried
  by the tree / range, with coordinates in `Rat`.
* The live browser state is `DomState`: the tree, the window selection
  (list of ranges), the focused element, and the last scroll request.
  Layout is static except that point hit-testing may depend on the scroll
  state; the browser's point-resolution (`caretRangeFromPoint` /
  `caretPositionFromPoint`) is an oracle in `DocEnv` reading the layout
  (tree + scroll state) only.
* JavaScript exceptions (member access on `null`/`undefined`) are `Except`
  errors; side effects relevant to the claims (z-index manipulation, point
  resolution, scrolling) are additionally recorded in an event trace.
-/

/-- A layout rectangle as returned by `getBoundingClientRect` / `getClientRects`. -/
structure Rect where
  top : Rat
  bottom : Rat
  left : Rat
  width : Rat
  height : Rat
deriving DecidableEq, Repr

/-- The element fields read or written by the caret utilities. -/
structure ElemInfo where
  tagName : String
  contentEditable : Bool
  value : String
  selectionStart : Nat
  selectionEnd : Nat
  rect : Rect
deriving DecidableEq, Repr

/-- A DOM subtree: a text node with its character data, or an element with
its fields and children. -/
inductive DomTree where
  | text (data : String)
  | elem (info : ElemInfo) (children : List DomTree)
deriving Repr

/-- A node identity: the path of child indices from the document root. -/
abbrev DomPath := List Nat

/-- Resolve a path to the subtree it denotes, if any. -/
def DomTree.get? (t : DomTree) : DomPath → Option DomTree
  | [] => some t
  | k :: rest =>
    match t with
    | .text _ => none
    | .elem _ cs =>
      match cs[k]? with
      | none => none
      | some c => DomTree.get? c rest

/-- The `nodeType`: 1 for elements (`window.Node.ELEMENT_NODE`), 3 for text nodes. -/
def DomTree.nodeType : DomTree → Nat
  | .text _ => 3
  | .elem _ _ => 1

/-- The `tagName`: present on elements only (`undefined` on text nodes). -/
def DomTree.tagName? : DomTree → Option String
  | .text _ => none
  | .elem i _ => some i.tagName

/-- The `isContentEditable`, falsy on text nodes. -/
def DomTree.isContentEditable : DomTree → Bool
  | .text _ => false
  | .elem i _ => i.contentEditable

/-- Number of children (0 for text nodes). -/
def DomTree.childCount : DomTree → Nat
  | .text _ => 0
  | .elem _ cs => cs.length

/-- The DOM `length` of a node: character count for text, child count for elements. -/
def DomTree.nodeLength : DomTree → Nat
  | .text s => s.length
  | .elem _ cs => cs.length

/-- The `getBoundingClientRect`, present on elements only. -/
def DomTree.rect? : DomTree → Option Rect
  | .text _ => none
  | .elem i _ => some i.rect

mutual

/-- The `textContent`: character data of a text node, concatenation of the
descendants' data for an element. -/
def DomTree.textContent : DomTree → String
  | .text s => s
  | .elem _ cs => textContentList cs

/-- Concatenated `textContent` of a list of sibling nodes. -/
def textContentList : List DomTree → String
  | [] => ""
  | c :: cs => DomTree.textContent c ++ textContentList cs

end

/-- A DOM `Range`: start and end boundary points, plus the layout answer
for `getClientRects()` on this range. -/
structure Range where
  startContainer : DomPath
  startOffset : Nat
  endContainer : DomPath
  endOffset : Nat
  clientRects : List Rect
deriving DecidableEq, Repr

/-- The `range.collapsed`: start and end boundary points coincide. -/
def Range.collapsed (r : Range) : Bool :=
  decide (r.startContainer = r.endContainer ∧ r.startOffset = r.endOffset)

/-- The `range.collapse(toStart)`. -/
def Range.collapse (r : Range) (toStart : Bool) : Range :=
  if toStart then { r with endContainer := r.startContainer, endOffset := r.startOffset }
  else { r with startContainer := r.endContainer, startOffset := r.endOffset }

/-- The live browser state: document tree, window selection (`rangeCount`
ranges, `getRangeAt i` indexing), focused element, last scroll request. -/
structure DomState where
  root : DomTree
  selection : List Range
  focused : Option DomPath
  scrolled : Option (DomPath × Bool)

/-- The `element.focus()`. -/
def DomState.focusOn (st : DomState) (p : DomPath) : DomState :=
  { st with focused := some p }

/-- The `selection.removeAllRanges()`. -/
def DomState.removeAllRanges (st : DomState) : DomState :=
  { st with selection := [] }

/-- The `selection.addRange(r)`. -/
def DomState.addRange (st : DomState) (r : Range) : DomState :=
  { st with selection := st.selection ++ [r] }

/-- The `container.scrollIntoView(alignToTop)`: records the scroll request
(layout is otherwise modelled as static). -/
def DomState.scrollIntoView (st : DomState) (p : DomPath) (alignToTop : Bool) : DomState :=
  { st with scrolled := some (p, alignToTop) }

/-- Rewrite the element fields of the node at a path (identity if the path
does not denote an element). -/
def modifyInfoAt (t : DomTree) : DomPath → (ElemInfo → ElemInfo) → DomTree
  | [], f =>
    match t with
    | .text s => .text s
    | .elem i cs => .elem (f i) cs
  | k :: rest, f =>
    match t with
    | .text s => .text s
    | .elem i cs => .elem i (cs.set k (modifyInfoAt (cs[k]?.getD (.text "")) rest f))

/-- The `container.selectionStart = n`. -/
def DomState.setSelectionStart (st : DomState) (p : DomPath) (n : Nat) : DomState :=
  { st with root := modifyInfoAt st.root p (fun i => { i with selectionStart := n }) }

/-- The `container.selectionEnd = n`. -/
def DomState.setSelectionEnd (st : DomState) (p : DomPath) (n : Nat) : DomState :=
  { st with root := modifyInfoAt st.root p (fun i => { i with selectionEnd := n }) }

/-- A JavaScript runtime exception (member access on `null`/`undefined`). -/
inductive DomException where
  | typeError
deriving DecidableEq, Repr

/-- The `includes( [ 'INPUT', 'TEXTAREA' ], tagName )`. -/
def isTextField (tag? : Option String) : Bool :=
  match tag? with
  | some t => decide (t = "INPUT") || decide (t = "TEXTAREA")
  | none => false

/-- The `while ( node !== container )` loop of `isHorizontalEdge`, lines
64-72 of the source: walk from the caret's node up through `parentNode`,
requiring each step to be the parent's `firstChild` (`useLast = false`) or
`lastChild` (`useLast = true`); reaching the container yields `true`, a
failed link check yields `false`, and walking past a node with no parent
dereferences `null` (a thrown `TypeError`).  Paths are processed in
reversed form (innermost index first) so that taking `parentNode` is
structural recursion. -/
def edgeWalkRev (root : DomTree) (containerRev : List Nat) (useLast : Bool) :
    List Nat → Except DomException Bool
  | [] => if containerRev = [] then .ok true else .error .typeError
  | idx :: parentRev =>
    if idx :: parentRev = containerRev then .ok true
    else
      match root.get? parentRev.reverse with
      | none => .error .typeError
      | some parent =>
        if 0 < parent.childCount ∧ idx = (if useLast then parent.childCount - 1 else 0) then
          edgeWalkRev root containerRev useLast parentRev
        else .ok false

/-- The `isHorizontalEdge( container, isReverse )`, source lines 26-75.
Returns the result paired with the (unchanged) browser state; a
`TypeError` models the `null` dereference that the parent walk can hit. -/
def isHorizontalEdge (st : DomState) (container : DomPath) (isReverse : Bool) :
    Except DomException (Bool × DomState) :=
  match st.root.get? container with
  | none => .error .typeError
  | some cNode =>
    if isTextField cNode.tagName? then
      match cNode with
      | .text _ => .error .typeError
      | .elem i _ =>
        if i.selectionStart ≠ i.selectionEnd then .ok (false, st)
        else if isReverse then .ok (decide (i.selectionStart = 0), st)
        else .ok (decide (i.value.length = i.selectionStart), st)
    else if ¬ cNode.isContentEditable then .ok (true, st)
    else
      match st.selection.head? with
      | none => .ok (false, st)
      | some range =>
        if ¬ range.collapsed then .ok (false, st)
        else
          let offset := if isReverse then range.startOffset else range.endOffset
          let node := range.startContainer
          if isReverse ∧ offset ≠ 0 then .ok (false, st)
          else
            match (if isReverse then .ok false else
                    match st.root.get? node with
                    | none => .error .typeError
                    | some nd => .ok (decide (offset ≠ nd.textContent.length)) :
                    Except DomException Bool) with
            | .error e => .error e
            | .ok true => .ok (false, st)
            | .ok false =>
              match edgeWalkRev st.root container.reverse (! isReverse) node.reverse with
              | .error e => .error e
              | .ok b => .ok (b, st)

/-- The vertical edge information returned by `getVerticalEdge`:
`isEdge` plus the caret rectangle when available. -/
structure EdgeResult where
  isEdge : Bool
  rect : Option Rect
deriving DecidableEq, Repr

/-- Source lines 104-111: the caret rectangle of a collapsed range — the
start container's `getBoundingClientRect()` when the start container is an
element node (`nodeType === window.Node.ELEMENT_NODE`, the `elem`
constructor), otherwise `range.getClientRects()[ 0 ]`. -/
def rangeRectOf (st : DomState) (range : Range) : Except DomException (Option Rect) :=
  match st.root.get? range.startContainer with
  | none => .error .typeError
  | some (.elem i _) => .ok (some i.rect)
  | some (.text _) => .ok range.clientRects.head?

/-- The `getVerticalEdge( container, isReverse )`, source lines 86-137. -/
def getVerticalEdge (st : DomState) (container : DomPath) (isReverse : Bool) :
    Except DomException (EdgeResult × DomState) :=
  match st.root.get? container with
  | none => .error .typeError
  | some cNode =>
    if isTextField cNode.tagName? then
      match isHorizontalEdge st container isReverse with
      | .error e => .error e
      | .ok (b, st1) => .ok (⟨b, none⟩, st1)
    else if ¬ cNode.isContentEditable then .ok (⟨true, none⟩, st)
    else
      match st.selection.head? with
      | none => .ok (⟨false, none⟩, st)
      | some range =>
        if ¬ range.collapsed then .ok (⟨false, none⟩, st)
        else
          match rangeRectOf st range with
          | .error e => .error e
          | .ok none => .ok (⟨false, none⟩, st)
          | .ok (some rangeRect) =>
            match cNode.rect? with
            | none => .error .typeError
            | some editableRect =>
              let buffer := rangeRect.height / 2
              if isReverse ∧ rangeRect.top - buffer > editableRect.top then
                .ok (⟨false, some rangeRect⟩, st)
              else if (¬ isReverse) ∧ rangeRect.bottom + buffer < editableRect.bottom then
                .ok (⟨false, some rangeRect⟩, st)
              else .ok (⟨true, some rangeRect⟩, st)

/-- The `placeCaretAtHorizontalEdge( container, isReverse )`, source lines
145-171. -/
def placeCaretAtHorizontalEdge (st : DomState) (container : DomPath) (isReverse : Bool) :
    Except DomException (Unit × DomState) :=
  match st.root.get? container with
  | none => .error .typeError
  | some cNode =>
    if isTextField cNode.tagName? then
      match cNode with
      | .text _ => .error .typeError
      | .elem i _ =>
        let st1 := st.focusOn container
        let target := if isReverse then 0 else i.value.length
        let st2 := st1.setSelectionStart container target
        let st3 := st2.setSelectionEnd container target
        .ok ((), st3)
    else if ¬ cNode.isContentEditable then
      .ok ((), st.focusOn container)
    else
      let range : Range :=
        { startContainer := container, startOffset := 0,
          endContainer := container, endOffset := cNode.nodeLength, clientRects := [] }
      let collapsedRange := range.collapse isReverse
      let st1 := st.removeAllRanges
      let st2 := st1.addRange collapsedRange
      let st3 := st2.focusOn container
      .ok ((), st3)

/-- A `CaretPosition` as returned by `document.caretPositionFromPoint`. -/
structure CaretPoint where
  offsetNode : DomPath
  offset : Nat
deriving DecidableEq, Repr

/-- The browser's point-resolution capabilities.  Each capability, when
present, is an oracle from the layout (document tree and scroll state) and
viewport coordinates; `caretPositionFromPoint` may yield no position (it
returns `null` for points outside the viewport). -/
structure DocEnv where
  caretRangeFromPointImpl : Option (DomTree → Option (DomPath × Bool) → Rat → Rat → Option Range)
  caretPositionFromPointImpl : Option (DomTree → Option (DomPath × Bool) → Rat → Rat → Option CaretPoint)

/-- The `caretRangeFromPoint` polyfill, source lines 184-200: use the
native `doc.caretRangeFromPoint` when present; otherwise return `null`
when `doc.caretPositionFromPoint` is missing, else build a collapsed range
at the returned caret position.  Reading `point.offsetNode` when the
position is `null` throws a `TypeError`. -/
def caretRangeFromPoint (doc : DocEnv) (root : DomTree) (scrolled : Option (DomPath × Bool))
    (x y : Rat) : Except DomException (Option Range) :=
  match doc.caretRangeFromPointImpl with
  | some f => .ok (f root scrolled x y)
  | none =>
    match doc.caretPositionFromPointImpl with
    | none => .ok none
    | some g =>
      match g root scrolled x y with
      | none => .error .typeError
      | some point =>
        .ok (some
          { startContainer := point.offsetNode, startOffset := point.offset,
            endContainer := point.offsetNode, endOffset := point.offset, clientRects := [] })

/-- Observable side effects of `placeCaretAtVerticalEdge` other than the
selection/focus state: the temporary z-index elevation, the point-based
range resolution, and scrolling. -/
inductive Event where
  | setZIndex (p : DomPath) (value : Option String)
  | resolvePoint (x y : Rat)
  | scrollIntoView (p : DomPath) (alignToTop : Bool)
deriving DecidableEq, Repr

/-- Prepend already-recorded events to the trace of a continuation's result. -/
def withEvents (evs : List Event) :
    Except DomException (List Event × DomState) → Except DomException (List Event × DomState)
  | .error e => .error e
  | .ok (evs2, st) => .ok (evs ++ evs2, st)

/-- The `placeCaretAtHorizontalEdge` viewed with an (empty) event trace, as
used for the fallbacks of `placeCaretAtVerticalEdge`. -/
def placeCaretAtHorizontalEdgeEv (st : DomState) (container : DomPath) (isReverse : Bool) :
    Except DomException (List Event × DomState) :=
  match placeCaretAtHorizontalEdge st container isReverse with
  | .error e => .error e
  | .ok (_, st1) => .ok ([], st1)

/-- The `x = rect.left + ( rect.width / 2 )`, source line 218. -/
def vertX (r : Rect) : Rat := r.left + r.width / 2

/-- The `y = isReverse ? ( editableRect.bottom - buffer ) : ( editableRect.top + buffer )`
with `buffer = rect.height / 2`, source lines 216 and 219. -/
def vertY (editableRect : Rect) (isReverse : Bool) (r : Rect) : Rat :=
  if isReverse then editableRect.bottom - r.height / 2 else editableRect.top + r.height / 2

/-- The side effects of one point-resolution probe: temporary z-index
elevation, the resolution itself, and the z-index restoration (source
lines 224-228). -/
def vertProbeEvents (container : DomPath) (x y : Rat) : List Event :=
  [.setZIndex container (some "10000"), .resolvePoint x y, .setZIndex container none]

/-- The `placeCaretAtVerticalEdge( container, isReverse, rect, mayUseScroll )`,
source lines 210-250, with the bounded recursion made explicit by a fuel
argument: the only recursive call (the scroll-then-retry, line 235) passes
`mayUseScroll = false` and consumes one unit of fuel, and a call with
`mayUseScroll = false` never recurses, so fuel `1` realises the source
exactly (see `placeCaretAtVerticalEdge`); the fuel-0-with-scroll branch is
unreachable from the entry point and conservatively falls back to
horizontal placement. -/
def placeCaretAtVerticalEdgeFuel (doc : DocEnv) :
    Nat → DomState → DomPath → Bool → Option Rect → Bool →
    Except DomException (List Event × DomState)
  | fuel, st, container, isReverse, rect, mayUseScroll =>
    match rect with
    | none => placeCaretAtHorizontalEdgeEv st container isReverse
    | some r =>
      match st.root.get? container with
      | none => .error .typeError
      | some cNode =>
        if ¬ cNode.isContentEditable then placeCaretAtHorizontalEdgeEv st container isReverse
        else
          match cNode.rect? with
          | none => .error .typeError
          | some editableRect =>
            let x := vertX r
            let y := vertY editableRect isReverse r
            let evs := vertProbeEvents container x y
            let onFail : Unit → Except DomException (List Event × DomState) := fun _ =>
              if mayUseScroll then
                match fuel with
                | 0 => withEvents evs (placeCaretAtHorizontalEdgeEv st container isReverse)
                | fuelLess + 1 =>
                  let stS := st.scrollIntoView container isReverse
                  withEvents (evs ++ [.scrollIntoView container isReverse])
                    (placeCaretAtVerticalEdgeFuel doc fuelLess stS container isReverse (some r) false)
              else withEvents evs (placeCaretAtHorizontalEdgeEv st container isReverse)
            match caretRangeFromPoint doc st.root st.scrolled x y with
            | .error e => .error e
            | .ok none => onFail ()
            | .ok (some range) =>
              if container.isPrefixOf range.startContainer then
                let st1 := st.removeAllRanges
                let st2 := st1.addRange range
                let st3 := st2.focusOn container
                let st4 := st3.removeAllRanges
                let st5 := st4.addRange range
                .ok (evs, st5)
              else onFail ()

/-- The `placeCaretAtVerticalEdge`: the source entry point (default
`mayUseScroll = true` is passed explicitly by callers here). -/
def placeCaretAtVerticalEdge (doc : DocEnv) (st : DomState) (container : DomPath)
    (isReverse : Bool) (rect : Option Rect) (mayUseScroll : Bool) :
    Except DomException (List Event × DomState) :=
  placeCaretAtVerticalEdgeFuel doc 1 st container isReverse rect mayUseScroll

/-! ## Specification-side predicates

The following definitions transcribe the *spec's words* (not the source),
for the refinement-style claims; each is compared with the corresponding
source function by a theorem below. -/

/-- One parent-to-child step of the spec's chain condition: at ancestor
`p`, the step to child index `i` "passes through the parent's first child
(`useLast = false`) or last child (`useLast = true`) link". -/
def chainStep (root : DomTree) (useLast : Bool) (p : DomPath) (i : Nat) : Bool :=
  match root.get? p with
  | some t => decide (0 < t.childCount) && decide (i = (if useLast then t.childCount - 1 else 0))
  | none => false

/-- The spec's chain condition along a whole descent: starting at ancestor
`p`, every step of `steps` passes through the first/last child link. -/
def chainSpecB (root : DomTree) (useLast : Bool) : DomPath → List Nat → Bool
  | _, [] => true
  | p, i :: rest => chainStep root useLast p i && chainSpecB root useLast (p ++ [i]) rest

/-- The claim's description of `isHorizontalEdge` (spec section 4.1): for
simple inputs, collapsed selection at offset 0 / text length; for rich
editable regions, collapsed selection whose offset is at the start/end of
the caret's node and whose ancestor chain up to the container follows
first/last child links; for anything else, `true`. -/
def specIsHorizontalEdge (st : DomState) (container : DomPath) (isReverse : Bool) : Bool :=
  match st.root.get? container with
  | none => false
  | some (.text _) => true
  | some (.elem i _) =>
    if isTextField (some i.tagName) then
      decide (i.selectionStart = i.selectionEnd) &&
        (if isReverse then decide (i.selectionStart = 0)
         else decide (i.selectionStart = i.value.length))
    else if ¬ i.contentEditable then true
    else
      match st.selection.head? with
      | none => false
      | some rg =>
        rg.collapsed &&
          (if isReverse then decide (rg.startOffset = 0)
           else
             match st.root.get? rg.startContainer with
             | none => false
             | some nd => decide (rg.endOffset = nd.textContent.length)) &&
          decide (container <+: rg.startContainer) &&
          chainSpecB st.root (! isReverse) container (rg.startContainer.drop container.length)

/-! ## Supporting lemmas -/

/-- Path resolution distributes over path concatenation. -/
theorem DomTree.get?_append (p : DomPath) :
    ∀ (t : DomTree) (q : DomPath), t.get? (p ++ q) = (t.get? p).bind (fun s => s.get? q) := by
  induction p with
  | nil => intro t q; simp [DomTree.get?]
  | cons k rest ih =>
    intro t q
    cases t with
    | text s => simp [DomTree.get?]
    | elem i cs =>
      simp only [List.cons_append, DomTree.get?]
      cases cs[k]? with
      | none => simp
      | some c => simpa using ih c q

/-- The chain condition for a descent extended by one final step. -/
theorem chainSpecB_snoc (root : DomTree) (useLast : Bool) :
    ∀ (s : List Nat) (p : DomPath) (i : Nat),
      chainSpecB root useLast p (s ++ [i])
        = (chainSpecB root useLast p s && chainStep root useLast (p ++ s) i) := by
  intro s
  induction s with
  | nil => intro p i; simp [chainSpecB]
  | cons j s ih =>
    intro p i
    simp only [List.cons_append, chainSpecB, List.append_eq]
    rw [ih (p ++ [j]) i, Bool.and_assoc]
    have h : p ++ [j] ++ s = p ++ j :: s := by simp
    rw [h]

/-- The bottom-up `while` walk of the source computes exactly the spec's
top-down chain condition, provided the caret's node actually resolves
below the container. -/
theorem edgeWalkRev_eq_chainSpecB (root : DomTree) (container : DomPath) (useLast : Bool) :
    ∀ (revSuf : List Nat),
      (root.get? (container ++ revSuf.reverse)).isSome →
      edgeWalkRev root container.reverse useLast (revSuf ++ container.reverse)
        = .ok (chainSpecB root useLast container revSuf.reverse) := by
  intro revSuf
  induction revSuf with
  | nil =>
    intro _
    cases h : container.reverse with
    | nil => simp [edgeWalkRev, h, chainSpecB]
    | cons c cr => simp [edgeWalkRev, h, chainSpecB]
  | cons i rest ih =>
    intro hsome
    have hne : i :: (rest ++ container.reverse) ≠ container.reverse := by
      intro h
      have := congrArg List.length h
      simp at this
      omega
    have hparent : (rest ++ container.reverse).reverse = container ++ rest.reverse := by
      simp
    have hps : (root.get? (container ++ rest.reverse)).isSome := by
      have h2 : container ++ (i :: rest).reverse = (container ++ rest.reverse) ++ [i] := by
        simp
      rw [h2, DomTree.get?_append] at hsome
      cases hget : root.get? (container ++ rest.reverse) with
      | none => rw [hget] at hsome; simp at hsome
      | some t => simp
    cases hget : root.get? (container ++ rest.reverse) with
    | none => rw [hget] at hps; simp at hps
    | some parent =>
      have hstep : chainStep root useLast (container ++ rest.reverse) i
          = (decide (0 < parent.childCount) &&
             decide (i = (if useLast then parent.childCount - 1 else 0))) := by
        simp [chainStep, hget]
      have hsnoc := chainSpecB_snoc root useLast rest.reverse container i
      by_cases hcond : 0 < parent.childCount ∧ i = (if useLast then parent.childCount - 1 else 0)
      · have : edgeWalkRev root container.reverse useLast ((i :: rest) ++ container.reverse)
            = edgeWalkRev root container.reverse useLast (rest ++ container.reverse) := by
          simp only [List.cons_append, edgeWalkRev, List.append_eq, hparent, hget,
            if_neg hne, if_pos hcond]
        rw [this, ih hps]
        have : chainSpecB root useLast container (i :: rest).reverse
            = chainSpecB root useLast container rest.reverse := by
          have hrev : (i :: rest).reverse = rest.reverse ++ [i] := by simp
          rw [hrev, hsnoc, hstep]
          simp [hcond.1, hcond.2]
        rw [this]
      · have : edgeWalkRev root container.reverse useLast ((i :: rest) ++ container.reverse)
            = .ok false := by
          simp only [List.cons_append, edgeWalkRev, List.append_eq, hparent, hget,
            if_neg hne, if_neg hcond]
        rw [this]
        have : chainSpecB root useLast container (i :: rest).reverse = false := by
          have hrev : (i :: rest).reverse = rest.reverse ++ [i] := by simp
          rw [hrev, hsnoc, hstep]
          rcases Decidable.not_and_iff_or_not.mp hcond with h | h <;> simp [h]
        rw [this]

/-- C1: `isHorizontalEdge( container, isReverse )` returns true iff: for simple
single/multi-line inputs, the selection is collapsed at offset 0 (reverse) or at
the text length (forward); for rich content-editable regions, the selection is
collapsed, its offset is at the start/end of the caret's node, and every
ancestor-to-container step follows the first/last child link; for any other
container, always true.  Stated for callers whose caret node (when a selection
exists) resolves and descends from the container — the situation the browser
guarantees. -/
theorem isHorizontalEdge_matches_spec (st : DomState) (container : DomPath) (isReverse : Bool)
    (hc : (st.root.get? container).isSome)
    (hsel : ∀ rg, st.selection.head? = some rg →
      (st.root.get? rg.startContainer).isSome ∧ container <+: rg.startContainer) :
    isHorizontalEdge st container isReverse
      = .ok (specIsHorizontalEdge st container isReverse, st) := by
  cases hcn : st.root.get? container with
  | none => rw [hcn] at hc; simp at hc
  | some cNode =>
    cases cNode with
    | text s =>
      simp [isHorizontalEdge, specIsHorizontalEdge, hcn, isTextField, DomTree.tagName?,
        DomTree.isContentEditable]
    | elem i cs =>
      by_cases htf : isTextField (some i.tagName)
      · by_cases hse : i.selectionStart = i.selectionEnd
        · cases isReverse <;>
            simp [isHorizontalEdge, specIsHorizontalEdge, hcn, DomTree.tagName?, htf, hse, eq_comm]
        · simp [isHorizontalEdge, specIsHorizontalEdge, hcn, DomTree.tagName?, htf, hse]
      · by_cases hce : i.contentEditable
        · cases hhd : st.selection.head? with
          | none =>
            simp [isHorizontalEdge, specIsHorizontalEdge, hcn, DomTree.tagName?,
              DomTree.isContentEditable, htf, hce, hhd]
          | some rg =>
            obtain ⟨hrgSome, hrgPre⟩ := hsel rg hhd
            cases hcol : rg.collapsed with
            | false =>
              simp [isHorizontalEdge, specIsHorizontalEdge, hcn, DomTree.tagName?,
                DomTree.isContentEditable, htf, hce, hhd, hcol]
            | true =>
              obtain ⟨s, hs⟩ := hrgPre
              have hdrop : rg.startContainer.drop container.length = s := by
                rw [← hs]; exact List.drop_left container s
              have hrev : rg.startContainer.reverse = s.reverse ++ container.reverse := by
                rw [← hs]; simp
              have hwalk : ∀ useLast, edgeWalkRev st.root container.reverse useLast
                  rg.startContainer.reverse = .ok (chainSpecB st.root useLast container s) := by
                intro useLast
                rw [hrev]
                have h2 := edgeWalkRev_eq_chainSpecB st.root container useLast s.reverse
                  (by rw [List.reverse_reverse, hs]; exact hrgSome)
                rwa [List.reverse_reverse] at h2
              have hpre : container <+: rg.startContainer := ⟨s, hs⟩
              cases isReverse with
              | true =>
                by_cases hoff : rg.startOffset = 0
                · simp [isHorizontalEdge, specIsHorizontalEdge, hcn, DomTree.tagName?,
                    DomTree.isContentEditable, htf, hce, hhd, hcol, hoff, hwalk, hdrop, hpre]
                · simp [isHorizontalEdge, specIsHorizontalEdge, hcn, DomTree.tagName?,
                    DomTree.isContentEditable, htf, hce, hhd, hcol, hoff]
              | false =>
                cases hnd : st.root.get? rg.startContainer with
                | none => rw [hnd] at hrgSome; simp at hrgSome
                | some nd =>
                  by_cases hoff : rg.endOffset = nd.textContent.length
                  · simp [isHorizontalEdge, specIsHorizontalEdge, hcn, DomTree.tagName?,
                      DomTree.isContentEditable, htf, hce, hhd, hcol, hnd, hoff, hwalk,
                      hdrop, hpre]
                  · simp [isHorizontalEdge, specIsHorizontalEdge, hcn, DomTree.tagName?,
                      DomTree.isContentEditable, htf, hce, hhd, hcol, hnd, hoff]
        · simp [isHorizontalEdge, specIsHorizontalEdge, hcn, DomTree.tagName?,
            DomTree.isContentEditable, htf, hce]

/-! ## Concrete fixtures used by witnesses and counterexamples -/

/-- Bounding rectangle of the example containers. -/
def exRect : Rect := ⟨0, 10, 0, 100, 10⟩

/-- Client rectangle of the example caret. -/
def exCaretRect : Rect := ⟨0, 2, 0, 1, 2⟩

/-- A rich content-editable paragraph with one text child. -/
def exRichRoot : DomTree := .elem ⟨"P", true, "", 0, 0, exRect⟩ [.text "hello"]

/-- Collapsed selection at the start of the paragraph's text node. -/
def exRichSt : DomState := ⟨exRichRoot, [⟨[0], 0, [0], 0, [exCaretRect]⟩], none, none⟩

/-- A single-line input holding "hello" with a collapsed selection at offset 2. -/
def exInputSt : DomState := ⟨.elem ⟨"INPUT", false, "hello", 2, 2, exRect⟩ [], [], none, none⟩

/-- A focusable but neither input nor content-editable container. -/
def exPlainRoot : DomTree := .elem ⟨"DIV", false, "", 0, 0, exRect⟩ [.text "hello"]

/-- Witness for C1: at the example rich state the caret sits at the start of
the first text child, so both the source function and the spec predicate
agree (and yield `true` in the reverse direction). -/
theorem isHorizontalEdge_matches_spec_witness :
    (exRichSt.root.get? []).isSome
    ∧ isHorizontalEdge exRichSt [] true = .ok (specIsHorizontalEdge exRichSt [] true, exRichSt)
    ∧ specIsHorizontalEdge exRichSt [] true = true :=
  ⟨by rfl,
   isHorizontalEdge_matches_spec exRichSt [] true (by rfl)
     (by
       intro rg h
       simp [exRichSt] at h
       subst h
       exact ⟨by rfl, ⟨[0], by rfl⟩⟩),
   by rfl⟩

/-- The claim's description of `getVerticalEdge` on a rich content-editable
container (spec section 4.1): no-edge (and no rectangle) when there is no
range, the selection is not collapsed, or no caret rectangle resolves;
otherwise the caret rectangle together with the near-edge comparison
against the container's bounding box, with a tolerance buffer of half the
caret rectangle's height. -/
def specGetVerticalEdge (st : DomState) (container : DomPath) (isReverse : Bool) : EdgeResult :=
  match st.selection.head? with
  | none => ⟨false, none⟩
  | some rg =>
    if ¬ rg.collapsed then ⟨false, none⟩
    else
      match (match rangeRectOf st rg with | .ok o => o | .error _ => none) with
      | none => ⟨false, none⟩
      | some rr =>
        match (st.root.get? container).bind DomTree.rect? with
        | none => ⟨false, none⟩
        | some er =>
          if isReverse then ⟨decide (rr.top ≤ er.top + rr.height / 2), some rr⟩
          else ⟨decide (er.bottom - rr.height / 2 ≤ rr.bottom), some rr⟩

/-- C2: on a rich content-editable container, `getVerticalEdge` fails to
no-edge (without a rectangle) when there is no range, the selection is not
collapsed or no caret rectangle resolves, and otherwise returns the caret
rectangle together with the buffered near-edge comparison (top within half
a caret height of the container top for reverse, bottom within half a
caret height of the container bottom for forward), the rectangle being
returned for both outcomes of the comparison. -/
theorem getVerticalEdge_matches_spec (st : DomState) (container : DomPath) (isReverse : Bool)
    (i : ElemInfo) (cs : List DomTree)
    (hcn : st.root.get? container = some (.elem i cs))
    (htf : isTextField (some i.tagName) = false)
    (hce : i.contentEditable = true)
    (hsel : ∀ rg, st.selection.head? = some rg → (st.root.get? rg.startContainer).isSome) :
    getVerticalEdge st container isReverse = .ok (specGetVerticalEdge st container isReverse, st) := by
  have hrev : ∀ rr er : Rect, ¬ rr.top - rr.height / 2 > er.top → rr.top ≤ er.top + rr.height / 2 :=
    fun rr er h => by linarith [not_lt.mp h]
  have hrev2 : ∀ rr er : Rect, rr.top - rr.height / 2 > er.top → ¬ rr.top ≤ er.top + rr.height / 2 :=
    fun rr er h => by intro h2; linarith
  have hfwd : ∀ rr er : Rect, ¬ rr.bottom + rr.height / 2 < er.bottom →
      er.bottom - rr.height / 2 ≤ rr.bottom :=
    fun rr er h => by linarith [not_lt.mp h]
  have hfwd2 : ∀ rr er : Rect, rr.bottom + rr.height / 2 < er.bottom →
      ¬ er.bottom - rr.height / 2 ≤ rr.bottom :=
    fun rr er h => by intro h2; linarith
  cases hhd : st.selection.head? with
  | none =>
    simp [getVerticalEdge, specGetVerticalEdge, hcn, DomTree.tagName?, DomTree.isContentEditable,
      htf, hce, hhd]
  | some rg =>
    cases hcol : rg.collapsed with
    | false =>
      simp [getVerticalEdge, specGetVerticalEdge, hcn, DomTree.tagName?, DomTree.isContentEditable,
        htf, hce, hhd, hcol]
    | true =>
      cases hnd : st.root.get? rg.startContainer with
      | none => have := hsel rg hhd; rw [hnd] at this; simp at this
      | some nd =>
        cases nd with
        | elem i2 cs2 =>
          cases isReverse with
          | true =>
            by_cases hcmp : i2.rect.top - i2.rect.height / 2 > i.rect.top
            · simp [getVerticalEdge, specGetVerticalEdge, rangeRectOf, hcn, DomTree.tagName?,
                DomTree.isContentEditable, DomTree.rect?, htf, hce, hhd, hcol, hnd, hcmp,
                hrev2 _ _ hcmp]
            · simp [getVerticalEdge, specGetVerticalEdge, rangeRectOf, hcn, DomTree.tagName?,
                DomTree.isContentEditable, DomTree.rect?, htf, hce, hhd, hcol, hnd, hcmp,
                hrev _ _ hcmp]
          | false =>
            by_cases hcmp : i2.rect.bottom + i2.rect.height / 2 < i.rect.bottom
            · simp [getVerticalEdge, specGetVerticalEdge, rangeRectOf, hcn, DomTree.tagName?,
                DomTree.isContentEditable, DomTree.rect?, htf, hce, hhd, hcol, hnd, hcmp,
                hfwd2 _ _ hcmp]
            · simp [getVerticalEdge, specGetVerticalEdge, rangeRectOf, hcn, DomTree.tagName?,
                DomTree.isContentEditable, DomTree.rect?, htf, hce, hhd, hcol, hnd, hcmp,
                hfwd _ _ hcmp]
        | text sdata =>
          cases hcr : rg.clientRects.head? with
          | none =>
            simp [getVerticalEdge, specGetVerticalEdge, rangeRectOf, hcn, DomTree.tagName?,
              DomTree.isContentEditable, DomTree.rect?, htf, hce, hhd, hcol, hnd, hcr]
          | some rr =>
            cases isReverse with
            | true =>
              by_cases hcmp : rr.top - rr.height / 2 > i.rect.top
              · simp [getVerticalEdge, specGetVerticalEdge, rangeRectOf, hcn, DomTree.tagName?,
                  DomTree.isContentEditable, DomTree.rect?, htf, hce, hhd, hcol, hnd, hcr, hcmp,
                  hrev2 _ _ hcmp]
              · simp [getVerticalEdge, specGetVerticalEdge, rangeRectOf, hcn, DomTree.tagName?,
                  DomTree.isContentEditable, DomTree.rect?, htf, hce, hhd, hcol, hnd, hcr, hcmp,
                  hrev _ _ hcmp]
            | false =>
              by_cases hcmp : rr.bottom + rr.height / 2 < i.rect.bottom
              · simp [getVerticalEdge, specGetVerticalEdge, rangeRectOf, hcn, DomTree.tagName?,
                  DomTree.isContentEditable, DomTree.rect?, htf, hce, hhd, hcol, hnd, hcr, hcmp,
                  hfwd2 _ _ hcmp]
              · simp [getVerticalEdge, specGetVerticalEdge, rangeRectOf, hcn, DomTree.tagName?,
                  DomTree.isContentEditable, DomTree.rect?, htf, hce, hhd, hcol, hnd, hcr, hcmp,
                  hfwd _ _ hcmp]

/-- Witness for C2: at the example rich state the caret rectangle is the
text node's first client rectangle and its top is within half a caret
height of the container top, so the result is an edge with that rectangle. -/
theorem getVerticalEdge_matches_spec_witness :
    (exRichSt.root.get? [] = some (.elem ⟨"P", true, "", 0, 0, exRect⟩ [.text "hello"]))
    ∧ getVerticalEdge exRichSt [] true = .ok (specGetVerticalEdge exRichSt [] true, exRichSt)
    ∧ specGetVerticalEdge exRichSt [] true = ⟨true, some exCaretRect⟩ :=
  ⟨by rfl,
   getVerticalEdge_matches_spec exRichSt [] true ⟨"P", true, "", 0, 0, exRect⟩ [.text "hello"]
     (by rfl) (by rfl) (by rfl)
     (by intro rg h; simp [exRichSt] at h; subst h; rfl),
   by
     simp [specGetVerticalEdge, rangeRectOf, exRichSt, exRichRoot, exRect, exCaretRect,
       DomTree.get?, Range.collapsed, DomTree.rect?]⟩

/-- The claim's (C8) rule for the caret rectangle: take the range's client
rectangle, and use the start container's own bounding rectangle only as a
fallback when the range rectangle is unavailable. -/
def specC8CaretRect (st : DomState) (rg : Range) : Option Rect :=
  match rg.clientRects.head? with
  | some rr => some rr
  | none => (st.root.get? rg.startContainer).bind DomTree.rect?

/-- Collapsed selection boundary placed at the container element itself,
even though the range still reports a client rectangle. -/
def c8Range : Range := ⟨[], 0, [], 0, [exCaretRect]⟩

/-- State for the C8 counterexample. -/
def c8St : DomState := ⟨exRichRoot, [c8Range], none, none⟩

/-- Counterexample to C8 as stated: the range's client rectangle is
available (`some exCaretRect`), yet the code uses the start container's
bounding rectangle (`exRect`) because the start container is an element
node — the element rectangle is not "only a fallback when the range
rectangle is unavailable". -/
theorem getVerticalEdge_rect_fallback_counterexample :
    getVerticalEdge c8St [] true = .ok (⟨true, some exRect⟩, c8St)
    ∧ specC8CaretRect c8St c8Range = some exCaretRect
    ∧ exRect ≠ exCaretRect := by
  refine ⟨?_, by rfl, by norm_num [exRect, exCaretRect, Rect.mk.injEq]⟩
  simp [getVerticalEdge, rangeRectOf, c8St, c8Range, exRichRoot, exRect, exCaretRect,
    DomTree.get?, Range.collapsed, DomTree.rect?, isTextField, DomTree.tagName?,
    DomTree.isContentEditable]
  norm_num

/-- C8 (amended): on a rich content-editable container with a collapsed
head range, the caret rectangle returned by `getVerticalEdge` is the start
container's own bounding rectangle whenever the start container is an
element node (as for empty containers), and the range's first client
rectangle when the start container is a text node. -/
theorem getVerticalEdge_rect_amended (st : DomState) (container : DomPath) (isReverse : Bool)
    (i : ElemInfo) (cs : List DomTree) (rg : Range) (nd : DomTree)
    (hcn : st.root.get? container = some (.elem i cs))
    (htf : isTextField (some i.tagName) = false)
    (hce : i.contentEditable = true)
    (hhd : st.selection.head? = some rg)
    (hcol : rg.collapsed = true)
    (hnd : st.root.get? rg.startContainer = some nd) :
    (getVerticalEdge st container isReverse).map (fun pr => pr.1.rect)
      = .ok (match nd with
             | .elem i2 _ => some i2.rect
             | .text _ => rg.clientRects.head?) := by
  cases nd with
  | elem i2 cs2 =>
    cases isReverse with
    | true =>
      by_cases hcmp : i2.rect.top - i2.rect.height / 2 > i.rect.top <;>
        simp [getVerticalEdge, rangeRectOf, Except.map, hcn, DomTree.tagName?,
          DomTree.isContentEditable, DomTree.rect?, htf, hce, hhd, hcol, hnd, hcmp]
    | false =>
      by_cases hcmp : i2.rect.bottom + i2.rect.height / 2 < i.rect.bottom <;>
        simp [getVerticalEdge, rangeRectOf, Except.map, hcn, DomTree.tagName?,
          DomTree.isContentEditable, DomTree.rect?, htf, hce, hhd, hcol, hnd, hcmp]
  | text sdata =>
    cases hcr : rg.clientRects.head? with
    | none =>
      simp [getVerticalEdge, rangeRectOf, Except.map, hcn, DomTree.tagName?,
        DomTree.isContentEditable, DomTree.rect?, htf, hce, hhd, hcol, hnd, hcr]
    | some rr =>
      cases isReverse with
      | true =>
        by_cases hcmp : rr.top - rr.height / 2 > i.rect.top <;>
          simp [getVerticalEdge, rangeRectOf, Except.map, hcn, DomTree.tagName?,
            DomTree.isContentEditable, DomTree.rect?, htf, hce, hhd, hcol, hnd, hcr, hcmp]
      | false =>
        by_cases hcmp : rr.bottom + rr.height / 2 < i.rect.bottom <;>
          simp [getVerticalEdge, rangeRectOf, Except.map, hcn, DomTree.tagName?,
            DomTree.isContentEditable, DomTree.rect?, htf, hce, hhd, hcol, hnd, hcr, hcmp]

/-- Witness for the amended C8: at the counterexample state the start
container is the element itself, so the element's bounding rectangle is
returned. -/
theorem getVerticalEdge_rect_amended_witness :
    (c8St.root.get? [] = some (.elem ⟨"P", true, "", 0, 0, exRect⟩ [.text "hello"]))
    ∧ (getVerticalEdge c8St [] true).map (fun pr => pr.1.rect) = .ok (some exRect) :=
  ⟨by rfl,
   getVerticalEdge_rect_amended c8St [] true ⟨"P", true, "", 0, 0, exRect⟩ [.text "hello"]
     c8Range (.elem ⟨"P", true, "", 0, 0, exRect⟩ [.text "hello"])
     (by rfl) (by rfl) (by rfl) (by rfl) (by rfl) (by rfl)⟩

/-- Apply an element-field rewrite to the root of a subtree. -/
def applyInfo (f : ElemInfo → ElemInfo) : DomTree → DomTree
  | .text s => .text s
  | .elem i cs => .elem (f i) cs

/-- Resolving the modified path after `modifyInfoAt` yields the rewritten node. -/
theorem get?_modifyInfoAt (p : DomPath) :
    ∀ (t : DomTree) (f : ElemInfo → ElemInfo) (nd : DomTree),
      t.get? p = some nd → (modifyInfoAt t p f).get? p = some (applyInfo f nd) := by
  induction p with
  | nil =>
    intro t f nd h
    simp [DomTree.get?] at h
    subst h
    cases t <;> simp [modifyInfoAt, DomTree.get?, applyInfo]
  | cons k rest ih =>
    intro t f nd h
    cases t with
    | text s => simp [DomTree.get?] at h
    | elem i cs =>
      simp only [DomTree.get?] at h
      cases hk : cs[k]? with
      | none => rw [hk] at h; simp at h
      | some c =>
        rw [hk] at h
        have hlt : k < cs.length := by
          by_contra hge
          rw [List.getElem?_eq_none (by omega)] at hk
          exact Option.noConfusion hk
        simp only [modifyInfoAt, DomTree.get?, hk, Option.getD_some]
        have hset : (cs.set k (modifyInfoAt c rest f))[k]? = some (modifyInfoAt c rest f) := by
          simp [List.getElem?_set_self', hlt]
        rw [hset]
        exact ih c f nd h

/-- The input-selection fields of the element at a path. -/
def inputSelection? (st : DomState) (p : DomPath) : Option (Nat × Nat) :=
  match st.root.get? p with
  | some (.elem i _) => some (i.selectionStart, i.selectionEnd)
  | _ => none

/-- C3: after `placeCaretAtHorizontalEdge( container, isReverse )` — for a
simple input, both selection offsets equal 0 (reverse) or the text length
(forward), the container is focused and the window selection is untouched;
for a rich content-editable region, the selection becomes the container's
entire contents collapsed to its start (reverse) or end (forward) and the
container is focused; otherwise the container is only focused. -/
theorem placeCaretAtHorizontalEdge_spec (st : DomState) (container : DomPath) (isReverse : Bool)
    (i : ElemInfo) (cs : List DomTree)
    (hcn : st.root.get? container = some (.elem i cs)) :
    (isTextField (some i.tagName) = true →
      ∃ st1, placeCaretAtHorizontalEdge st container isReverse = .ok ((), st1)
        ∧ inputSelection? st1 container
            = some (if isReverse then (0, 0) else (i.value.length, i.value.length))
        ∧ st1.focused = some container
        ∧ st1.selection = st.selection)
    ∧ (isTextField (some i.tagName) = false → i.contentEditable = true →
      placeCaretAtHorizontalEdge st container isReverse
        = .ok ((), { st with
            selection := [{ startContainer := container,
                            startOffset := if isReverse then 0 else cs.length,
                            endContainer := container,
                            endOffset := if isReverse then 0 else cs.length,
                            clientRects := [] }],
            focused := some container }))
    ∧ (isTextField (some i.tagName) = false → i.contentEditable = false →
      placeCaretAtHorizontalEdge st container isReverse
        = .ok ((), { st with focused := some container })) := by
  refine ⟨?_, ?_, ?_⟩
  · intro htf
    refine ⟨((st.focusOn container).setSelectionStart container
        (if isReverse then 0 else i.value.length)).setSelectionEnd container
        (if isReverse then 0 else i.value.length), ?_, ?_, ?_, ?_⟩
    · simp only [placeCaretAtHorizontalEdge, hcn, DomTree.tagName?, htf, if_true]
    · have h1 := get?_modifyInfoAt container st.root
        (fun j => { j with selectionStart := if isReverse then 0 else i.value.length })
        (.elem i cs) hcn
      have h2 := get?_modifyInfoAt container _
        (fun j => { j with selectionEnd := if isReverse then 0 else i.value.length })
        _ h1
      simp only [inputSelection?, DomState.setSelectionStart, DomState.setSelectionEnd,
        DomState.focusOn, applyInfo] at h2 ⊢
      cases isReverse <;> simp_all
    · rfl
    · rfl
  · intro htf hce
    cases isReverse <;>
      simp [placeCaretAtHorizontalEdge, hcn, DomTree.tagName?, DomTree.isContentEditable,
        DomTree.nodeLength, htf, hce, Range.collapse, DomState.removeAllRanges,
        DomState.addRange, DomState.focusOn]
  · intro htf hce
    simp [placeCaretAtHorizontalEdge, hcn, DomTree.tagName?, DomTree.isContentEditable,
      htf, hce, DomState.focusOn]

/-- Witness for C3: placing the caret in reverse into the example input
focuses it and reads back selection offsets (0, 0). -/
theorem placeCaretAtHorizontalEdge_spec_witness :
    (exInputSt.root.get? [] = some (.elem ⟨"INPUT", false, "hello", 2, 2, exRect⟩ []))
    ∧ isTextField (some "INPUT") = true
    ∧ ∃ st1, placeCaretAtHorizontalEdge exInputSt [] true = .ok ((), st1)
        ∧ inputSelection? st1 [] = some (if true then (0, 0) else (5, 5))
        ∧ st1.focused = some []
        ∧ st1.selection = exInputSt.selection :=
  ⟨by rfl, by rfl,
   (placeCaretAtHorizontalEdge_spec exInputSt [] true ⟨"INPUT", false, "hello", 2, 2, exRect⟩ []
     (by rfl)).1 (by rfl)⟩

/-- The `isHorizontalEdge` returns the browser state unchanged. -/
theorem isHorizontalEdge_state_eq {st : DomState} {container : DomPath} {isReverse : Bool}
    {b : Bool} {st1 : DomState} (h : isHorizontalEdge st container isReverse = .ok (b, st1)) :
    st1 = st := by
  unfold isHorizontalEdge at h
  repeat' (first | (split at h) | simp_all)

/-- The `getVerticalEdge` returns the browser state unchanged. -/
theorem getVerticalEdge_state_eq {st : DomState} {container : DomPath} {isReverse : Bool}
    {er : EdgeResult} {st2 : DomState} (h : getVerticalEdge st container isReverse = .ok (er, st2)) :
    st2 = st := by
  unfold getVerticalEdge at h
  cases hh : isHorizontalEdge st container isReverse with
  | error e =>
    rw [hh] at h
    repeat' (first | (split at h) | simp_all)
  | ok pr =>
    obtain ⟨b, st1⟩ := pr
    have hst1 : st1 = st := isHorizontalEdge_state_eq hh
    subst hst1
    rw [hh] at h
    repeat' (first | (split at h) | simp_all)

/-- C5: the edge-detection queries `isHorizontalEdge` and `getVerticalEdge`
leave the whole browser state — in particular the selection's ranges and
endpoints — unchanged; only the repositioning operations mutate it. -/
theorem edge_queries_preserve_selection (st : DomState) (container : DomPath) (isReverse : Bool) :
    (∀ b st1, isHorizontalEdge st container isReverse = .ok (b, st1) →
      st1 = st ∧ st1.selection = st.selection)
    ∧ (∀ er st2, getVerticalEdge st container isReverse = .ok (er, st2) →
      st2 = st ∧ st2.selection = st.selection) :=
  ⟨fun _ _ h => by have := isHorizontalEdge_state_eq h; exact ⟨this, by rw [this]⟩,
   fun _ _ h => by have := getVerticalEdge_state_eq h; exact ⟨this, by rw [this]⟩⟩

/-- Witness for C5: both queries run on example states and return them
unchanged. -/
theorem edge_queries_preserve_selection_witness :
    (isHorizontalEdge exRichSt [] true = .ok (true, exRichSt))
    ∧ (getVerticalEdge exInputSt [] true = .ok (⟨false, none⟩, exInputSt))
    ∧ (exRichSt = exRichSt ∧ exRichSt.selection = exRichSt.selection)
    ∧ (exInputSt = exInputSt ∧ exInputSt.selection = exInputSt.selection) :=
  ⟨by rfl, by rfl,
   (edge_queries_preserve_selection exRichSt [] true).1 true exRichSt (by rfl),
   (edge_queries_preserve_selection exInputSt [] true).2 ⟨false, none⟩ exInputSt (by rfl)⟩

/-! ## Equation lemmas for the placement operations -/

/-- The `placeCaretAtHorizontalEdge` on a simple input: focus, then write both
selection offsets. -/
theorem placeCaretAtHorizontalEdge_input_eq (st : DomState) (container : DomPath)
    (isReverse : Bool) (i : ElemInfo) (cs : List DomTree)
    (hcn : st.root.get? container = some (.elem i cs))
    (htf : isTextField (some i.tagName) = true) :
    placeCaretAtHorizontalEdge st container isReverse
      = .ok ((), ((st.focusOn container).setSelectionStart container
          (if isReverse then 0 else i.value.length)).setSelectionEnd container
          (if isReverse then 0 else i.value.length)) := by
  simp only [placeCaretAtHorizontalEdge, hcn, DomTree.tagName?, htf, if_true]

/-- The `placeCaretAtHorizontalEdge` on a rich content-editable element:
the selection becomes the contents range collapsed to the requested side
and the container is focused. -/
theorem placeCaretAtHorizontalEdge_rich_eq (st : DomState) (container : DomPath)
    (isReverse : Bool) (i : ElemInfo) (cs : List DomTree)
    (hcn : st.root.get? container = some (.elem i cs))
    (htf : isTextField (some i.tagName) = false)
    (hce : i.contentEditable = true) :
    placeCaretAtHorizontalEdge st container isReverse
      = .ok ((), { st with
          selection := [{ startContainer := container,
                          startOffset := if isReverse then 0 else cs.length,
                          endContainer := container,
                          endOffset := if isReverse then 0 else cs.length,
                          clientRects := [] }],
          focused := some container }) := by
  cases isReverse <;>
    simp [placeCaretAtHorizontalEdge, hcn, DomTree.tagName?, DomTree.isContentEditable,
      DomTree.nodeLength, htf, hce, Range.collapse, DomState.removeAllRanges,
      DomState.addRange, DomState.focusOn]

/-- The `placeCaretAtHorizontalEdge` on a container that is neither an input
nor content-editable: only focus. -/
theorem placeCaretAtHorizontalEdge_plain_eq (st : DomState) (container : DomPath)
    (isReverse : Bool) (cNode : DomTree)
    (hcn : st.root.get? container = some cNode)
    (htf : isTextField cNode.tagName? = false)
    (hce : cNode.isContentEditable = false) :
    placeCaretAtHorizontalEdge st container isReverse = .ok ((), st.focusOn container) := by
  cases cNode <;> simp_all [placeCaretAtHorizontalEdge, DomTree.tagName?,
    DomTree.isContentEditable, DomState.focusOn]

/-- A missing rectangle or a non-content-editable container makes
`placeCaretAtVerticalEdgeFuel` delegate to horizontal placement at once. -/
theorem vertFuel_delegate (doc : DocEnv) (fuel : Nat) (st : DomState) (container : DomPath)
    (isReverse : Bool) (rect : Option Rect) (mayUseScroll : Bool) (cNode : DomTree)
    (hcn : st.root.get? container = some cNode)
    (h : rect = none ∨ cNode.isContentEditable = false) :
    placeCaretAtVerticalEdgeFuel doc fuel st container isReverse rect mayUseScroll
      = placeCaretAtHorizontalEdgeEv st container isReverse := by
  rcases h with h | h
  · subst h; simp [placeCaretAtVerticalEdgeFuel]
  · cases rect with
    | none => simp [placeCaretAtVerticalEdgeFuel]
    | some r => simp [placeCaretAtVerticalEdgeFuel, hcn, h]

/-- A successful, contained point resolution rewrites the selection to the
resolved range (applied twice) and focuses the container. -/
theorem vertFuel_success (doc : DocEnv) (fuel : Nat) (st : DomState) (container : DomPath)
    (isReverse : Bool) (r : Rect) (mayUseScroll : Bool) (i : ElemInfo) (cs : List DomTree)
    (rg : Range)
    (hcn : st.root.get? container = some (.elem i cs)) (hce : i.contentEditable = true)
    (hres : caretRangeFromPoint doc st.root st.scrolled (vertX r) (vertY i.rect isReverse r)
      = .ok (some rg))
    (hin : container.isPrefixOf rg.startContainer = true) :
    placeCaretAtVerticalEdgeFuel doc fuel st container isReverse (some r) mayUseScroll
      = .ok (vertProbeEvents container (vertX r) (vertY i.rect isReverse r),
             { st with selection := [rg], focused := some container }) := by
  simp [placeCaretAtVerticalEdgeFuel, hcn, DomTree.isContentEditable, hce, DomTree.rect?,
    hres, hin, DomState.removeAllRanges, DomState.addRange, DomState.focusOn]

/-- A failed point resolution with scrolling disallowed falls back to
horizontal placement. -/
theorem vertFuel_fail_false (doc : DocEnv) (fuel : Nat) (st : DomState) (container : DomPath)
    (isReverse : Bool) (r : Rect) (i : ElemInfo) (cs : List DomTree) (ro : Option Range)
    (hcn : st.root.get? container = some (.elem i cs)) (hce : i.contentEditable = true)
    (hres : caretRangeFromPoint doc st.root st.scrolled (vertX r) (vertY i.rect isReverse r)
      = .ok ro)
    (hfail : ∀ rg, ro = some rg → container.isPrefixOf rg.startContainer = false) :
    placeCaretAtVerticalEdgeFuel doc fuel st container isReverse (some r) false
      = withEvents (vertProbeEvents container (vertX r) (vertY i.rect isReverse r))
          (placeCaretAtHorizontalEdgeEv st container isReverse) := by
  cases ro with
  | none =>
    simp [placeCaretAtVerticalEdgeFuel, hcn, DomTree.isContentEditable, hce, DomTree.rect?, hres]
  | some rg =>
    simp [placeCaretAtVerticalEdgeFuel, hcn, DomTree.isContentEditable, hce, DomTree.rect?,
      hres, hfail rg rfl]

/-- A failed point resolution with scrolling allowed scrolls the container
into view and retries once with scrolling disabled. -/
theorem vertFuel_fail_true (doc : DocEnv) (fuel : Nat) (st : DomState) (container : DomPath)
    (isReverse : Bool) (r : Rect) (i : ElemInfo) (cs : List DomTree) (ro : Option Range)
    (hcn : st.root.get? container = some (.elem i cs)) (hce : i.contentEditable = true)
    (hres : caretRangeFromPoint doc st.root st.scrolled (vertX r) (vertY i.rect isReverse r)
      = .ok ro)
    (hfail : ∀ rg, ro = some rg → container.isPrefixOf rg.startContainer = false) :
    placeCaretAtVerticalEdgeFuel doc (fuel + 1) st container isReverse (some r) true
      = withEvents (vertProbeEvents container (vertX r) (vertY i.rect isReverse r)
            ++ [.scrollIntoView container isReverse])
          (placeCaretAtVerticalEdgeFuel doc fuel (st.scrollIntoView container isReverse)
            container isReverse (some r) false) := by
  cases ro with
  | none =>
    simp [placeCaretAtVerticalEdgeFuel, hcn, DomTree.isContentEditable, hce, DomTree.rect?, hres]
  | some rg =>
    simp [placeCaretAtVerticalEdgeFuel, hcn, DomTree.isContentEditable, hce, DomTree.rect?,
      hres, hfail rg rfl]

/-- With scrolling disabled no recursion happens, so the fuel is irrelevant. -/
theorem vertFuel_false_fuel_irrel (doc : DocEnv) (n m : Nat) (st : DomState)
    (container : DomPath) (isReverse : Bool) (rect : Option Rect) :
    placeCaretAtVerticalEdgeFuel doc n st container isReverse rect false
      = placeCaretAtVerticalEdgeFuel doc m st container isReverse rect false := by
  cases rect with
  | none => simp [placeCaretAtVerticalEdgeFuel]
  | some r =>
    cases hcn : st.root.get? container with
    | none => simp [placeCaretAtVerticalEdgeFuel, hcn]
    | some cNode =>
      by_cases hce : cNode.isContentEditable
      · cases hr : cNode.rect? with
        | none => simp [placeCaretAtVerticalEdgeFuel, hcn, hce, hr]
        | some er =>
          cases hres : caretRangeFromPoint doc st.root st.scrolled (vertX r)
              (vertY er isReverse r) with
          | error e => simp [placeCaretAtVerticalEdgeFuel, hcn, hce, hr, hres]
          | ok ro =>
            cases ro with
            | none => simp [placeCaretAtVerticalEdgeFuel, hcn, hce, hr, hres]
            | some rg =>
              by_cases hin : container.isPrefixOf rg.startContainer <;>
                simp [placeCaretAtVerticalEdgeFuel, hcn, hce, hr, hres, hin]
      · simp [placeCaretAtVerticalEdgeFuel, hcn, hce]

/-- Inversion for `withEvents`. -/
theorem withEvents_ok {evs : List Event} {res : Except DomException (List Event × DomState)}
    {ev : List Event} {st1 : DomState} (h : withEvents evs res = .ok (ev, st1)) :
    ∃ ev2, res = .ok (ev2, st1) ∧ ev = evs ++ ev2 := by
  cases res with
  | error e => simp [withEvents] at h
  | ok pr =>
    obtain ⟨ev2, st2⟩ := pr
    simp [withEvents] at h
    exact ⟨ev2, by rw [h.2], h.1.symm⟩

/-- Ranges produced by the point-resolution polyfill (or by a native
implementation yielding collapsed ranges) are collapsed. -/
theorem caretRangeFromPoint_collapsed (doc : DocEnv) (root : DomTree)
    (sc : Option (DomPath × Bool)) (x y : Rat) (rg : Range)
    (hnative : ∀ f, doc.caretRangeFromPointImpl = some f →
      ∀ rg2, f root sc x y = some rg2 → rg2.collapsed = true)
    (h : caretRangeFromPoint doc root sc x y = .ok (some rg)) : rg.collapsed = true := by
  unfold caretRangeFromPoint at h
  cases hf : doc.caretRangeFromPointImpl with
  | some f =>
    simp only [hf] at h
    simp at h
    exact hnative f hf rg h
  | none =>
    simp only [hf] at h
    cases hg : doc.caretPositionFromPointImpl with
    | none => simp only [hg] at h; simp at h
    | some g =>
      simp only [hg] at h
      cases hp : g root sc x y with
      | none => simp only [hp] at h; simp at h
      | some point =>
        simp only [hp] at h
        simp at h
        rw [← h]
        simp [Range.collapsed]

/-- Point-resolution oracle that never finds a range (e.g. the container
is out of view). -/
def exDocMiss : DocEnv := ⟨some (fun _ _ _ _ => none), none⟩

/-- A document without native `caretRangeFromPoint` whose
`caretPositionFromPoint` yields no position at the probed point. -/
def exDocNullPoint : DocEnv := ⟨none, some (fun _ _ _ _ => none)⟩

/-- State holding only the plain (non-input, non-editable) container. -/
def exPlainSt : DomState := ⟨exPlainRoot, [], none, none⟩

/-- C10: calling `placeCaretAtVerticalEdge` with a missing rect, or on a
container that is not content-editable, immediately delegates to
`placeCaretAtHorizontalEdge` — the empty event trace shows that no point
resolution, z-index manipulation or scrolling is performed — so a missing
rectangle is not an error at the public interface. -/
theorem placeCaretAtVerticalEdge_missing_rect_delegates (doc : DocEnv) (st : DomState)
    (container : DomPath) (isReverse : Bool) (rect : Option Rect) (mayUseScroll : Bool)
    (cNode : DomTree) (hcn : st.root.get? container = some cNode)
    (h : rect = none ∨ cNode.isContentEditable = false) :
    placeCaretAtVerticalEdge doc st container isReverse rect mayUseScroll
      = placeCaretAtHorizontalEdgeEv st container isReverse :=
  vertFuel_delegate doc 1 st container isReverse rect mayUseScroll cNode hcn h

/-- Witness for C10: a non-editable container with a rectangle still
delegates, producing no probe events. -/
theorem placeCaretAtVerticalEdge_missing_rect_delegates_witness :
    (exPlainSt.root.get? [] = some exPlainRoot)
    ∧ (some exRect = none ∨ exPlainRoot.isContentEditable = false)
    ∧ placeCaretAtVerticalEdge exDocMiss exPlainSt [] true (some exRect) true
        = placeCaretAtHorizontalEdgeEv exPlainSt [] true :=
  ⟨by rfl, Or.inr (by rfl),
   placeCaretAtVerticalEdge_missing_rect_delegates exDocMiss exPlainSt [] true (some exRect) true
     exPlainRoot (by rfl) (Or.inr (by rfl))⟩

/-- C7 (code bug): on a document without native `caretRangeFromPoint`
whose `caretPositionFromPoint` yields no position — a real situation when
the probed point is outside the viewport, exactly the out-of-view case the
scroll fallback is written for — the polyfill dereferences the `null`
position (`point.offsetNode`) and the call throws instead of falling back. -/
theorem placeCaretAtVerticalEdge_polyfill_throws :
    placeCaretAtVerticalEdge exDocNullPoint exRichSt [] true (some exCaretRect) true
      = .error .typeError := by rfl

/-- C4: when point resolution yields no range inside the container —
`caretRangeFromPoint` returns `ro` that is absent or not contained — a
call with scrolling allowed scrolls the container into view aligned by
`isReverse` and retries exactly once with scrolling disabled; a call with
scrolling disallowed falls back to `placeCaretAtHorizontalEdge`; and the
fuel-indexed recursion is insensitive to any fuel beyond the entry
point's, i.e. the recursion depth is bounded by 2 and every call
terminates. -/
theorem placeCaretAtVerticalEdge_retry_structure (doc : DocEnv) (st : DomState)
    (container : DomPath) (isReverse : Bool) (r : Rect) (i : ElemInfo) (cs : List DomTree)
    (ro : Option Range)
    (hcn : st.root.get? container = some (.elem i cs))
    (hce : i.contentEditable = true)
    (hres : caretRangeFromPoint doc st.root st.scrolled (vertX r) (vertY i.rect isReverse r)
      = .ok ro)
    (hfail : ∀ rg, ro = some rg → container.isPrefixOf rg.startContainer = false) :
    (placeCaretAtVerticalEdge doc st container isReverse (some r) true
      = withEvents (vertProbeEvents container (vertX r) (vertY i.rect isReverse r)
            ++ [.scrollIntoView container isReverse])
          (placeCaretAtVerticalEdge doc (st.scrollIntoView container isReverse) container
            isReverse (some r) false))
    ∧ (placeCaretAtVerticalEdge doc st container isReverse (some r) false
      = withEvents (vertProbeEvents container (vertX r) (vertY i.rect isReverse r))
          (placeCaretAtHorizontalEdgeEv st container isReverse))
    ∧ (∀ n, placeCaretAtVerticalEdgeFuel doc (n + 1) st container isReverse (some r) true
      = placeCaretAtVerticalEdge doc st container isReverse (some r) true) := by
  refine ⟨?_, ?_, ?_⟩
  · unfold placeCaretAtVerticalEdge
    rw [vertFuel_fail_true doc 0 st container isReverse r i cs ro hcn hce hres hfail,
      vertFuel_false_fuel_irrel doc 0 1]
  · exact vertFuel_fail_false doc 1 st container isReverse r i cs ro hcn hce hres hfail
  · intro n
    unfold placeCaretAtVerticalEdge
    rw [vertFuel_fail_true doc n st container isReverse r i cs ro hcn hce hres hfail,
      vertFuel_fail_true doc 0 st container isReverse r i cs ro hcn hce hres hfail,
      vertFuel_false_fuel_irrel doc n 0]

/-- Witness for C4: a never-resolving oracle at the example rich state. -/
theorem placeCaretAtVerticalEdge_retry_structure_witness :
    (caretRangeFromPoint exDocMiss exRichSt.root exRichSt.scrolled (vertX exCaretRect)
        (vertY exRect true exCaretRect) = .ok none)
    ∧ (placeCaretAtVerticalEdge exDocMiss exRichSt [] true (some exCaretRect) false
        = withEvents (vertProbeEvents [] (vertX exCaretRect) (vertY exRect true exCaretRect))
            (placeCaretAtHorizontalEdgeEv exRichSt [] true)) :=
  ⟨by rfl,
   (placeCaretAtVerticalEdge_retry_structure exDocMiss exRichSt [] true exCaretRect
      ⟨"P", true, "", 0, 0, exRect⟩ [.text "hello"] none (by rfl) (by rfl) (by rfl)
      (fun rg h => by cases h)).2.1⟩

/-- The claim's (C6) invariant: the document selection is exactly one
collapsed range whose position lies inside (is an inclusive descendant of)
the target container. -/
def selectionOneCollapsedInside (st : DomState) (container : DomPath) : Bool :=
  match st.selection with
  | [rg] => rg.collapsed && container.isPrefixOf rg.startContainer
  | _ => false

/-- A list is a prefix of itself (`isPrefixOf` form). -/
theorem isPrefixOf_self (l : List Nat) : l.isPrefixOf l = true := by
  induction l with
  | nil => rfl
  | cons a l ih => simp [List.isPrefixOf, ih]

/-- An erroring point resolution propagates out of
`placeCaretAtVerticalEdgeFuel`. -/
theorem vertFuel_error (doc : DocEnv) (fuel : Nat) (st : DomState) (container : DomPath)
    (isReverse : Bool) (r : Rect) (mayUseScroll : Bool) (i : ElemInfo) (cs : List DomTree)
    (e : DomException)
    (hcn : st.root.get? container = some (.elem i cs)) (hce : i.contentEditable = true)
    (hres : caretRangeFromPoint doc st.root st.scrolled (vertX r) (vertY i.rect isReverse r)
      = .error e) :
    placeCaretAtVerticalEdgeFuel doc fuel st container isReverse (some r) mayUseScroll
      = .error e := by
  simp [placeCaretAtVerticalEdgeFuel, hcn, DomTree.isContentEditable, hce, DomTree.rect?, hres]

/-- The `placeCaretAtHorizontalEdgeEv` on a rich content-editable element. -/
theorem placeCaretAtHorizontalEdgeEv_rich_eq (st : DomState) (container : DomPath)
    (isReverse : Bool) (i : ElemInfo) (cs : List DomTree)
    (hcn : st.root.get? container = some (.elem i cs))
    (htf : isTextField (some i.tagName) = false)
    (hce : i.contentEditable = true) :
    placeCaretAtHorizontalEdgeEv st container isReverse
      = .ok ([], { st with
          selection := [{ startContainer := container,
                          startOffset := if isReverse then 0 else cs.length,
                          endContainer := container,
                          endOffset := if isReverse then 0 else cs.length,
                          clientRects := [] }],
          focused := some container }) := by
  unfold placeCaretAtHorizontalEdgeEv
  rw [placeCaretAtHorizontalEdge_rich_eq st container isReverse i cs hcn htf hce]

/-- Stale non-collapsed selection in front of a plain container. -/
def c6St : DomState := ⟨exPlainRoot, [⟨[0], 0, [0], 3, []⟩], none, none⟩

/-- Counterexample to C6 as stated: repositioning a container that is
neither an input nor content-editable only focuses it, leaving the stale
non-collapsed selection in place, so the document selection is not one
collapsed range inside the container afterwards. -/
theorem placeCaret_selection_invariant_counterexample :
    placeCaretAtHorizontalEdge c6St [] true = .ok ((), { c6St with focused := some [] })
    ∧ selectionOneCollapsedInside { c6St with focused := some [] } [] = false := by
  constructor
  · rfl
  · rfl

/-- C6 (amended): restricted to rich content-editable containers — and,
for the vertical placement, to point-resolution oracles yielding collapsed
ranges, as the browser's `caretRangeFromPoint` does — both repositioning
operations leave exactly one collapsed range inside the target container. -/
theorem placeCaret_selection_invariant_amended (doc : DocEnv) (st : DomState)
    (container : DomPath) (isReverse : Bool) (rect : Option Rect) (mayUseScroll : Bool)
    (i : ElemInfo) (cs : List DomTree)
    (hcn : st.root.get? container = some (.elem i cs))
    (htf : isTextField (some i.tagName) = false)
    (hce : i.contentEditable = true)
    (hnative : ∀ f, doc.caretRangeFromPointImpl = some f →
      ∀ root sc x y rg, f root sc x y = some rg → rg.collapsed = true) :
    (∀ st1, placeCaretAtHorizontalEdge st container isReverse = .ok ((), st1) →
      selectionOneCollapsedInside st1 container = true)
    ∧ (∀ ev st1, placeCaretAtVerticalEdge doc st container isReverse rect mayUseScroll
        = .ok (ev, st1) → selectionOneCollapsedInside st1 container = true) := by
  have hpredH : ∀ st0 : DomState,
      selectionOneCollapsedInside
        { st0 with
          selection := [{ startContainer := container,
                          startOffset := if isReverse then 0 else cs.length,
                          endContainer := container,
                          endOffset := if isReverse then 0 else cs.length,
                          clientRects := [] }],
          focused := some container } container = true := by
    intro st0
    simp [selectionOneCollapsedInside, Range.collapsed, isPrefixOf_self]
  have hpart1 : ∀ st0 st1, st0.root = st.root →
      placeCaretAtHorizontalEdge st0 container isReverse = .ok ((), st1) →
      selectionOneCollapsedInside st1 container = true := by
    intro st0 st1 hroot h
    rw [placeCaretAtHorizontalEdge_rich_eq st0 container isReverse i cs (by rw [hroot]; exact hcn)
      htf hce] at h
    injection h with h2
    injection h2 with h3 h4
    rw [← h4]
    exact hpredH st0
  have hpredS : ∀ (st0 : DomState) (rg : Range), rg.collapsed = true →
      container.isPrefixOf rg.startContainer = true →
      selectionOneCollapsedInside
        { st0 with selection := [rg], focused := some container } container = true := by
    intro st0 rg hc hp
    simp [selectionOneCollapsedInside, hc, hp]
  refine ⟨fun st1 h => hpart1 st st1 rfl h, ?_⟩
  intro ev st1 h
  unfold placeCaretAtVerticalEdge at h
  cases rect with
  | none =>
    rw [vertFuel_delegate doc 1 st container isReverse none mayUseScroll _ hcn (Or.inl rfl)] at h
    rw [placeCaretAtHorizontalEdgeEv_rich_eq st container isReverse i cs hcn htf hce] at h
    injection h with h2
    injection h2 with h3 h4
    rw [← h4]
    exact hpredH st
  | some r =>
    cases hres : caretRangeFromPoint doc st.root st.scrolled (vertX r)
        (vertY i.rect isReverse r) with
    | error e =>
      rw [vertFuel_error doc 1 st container isReverse r mayUseScroll i cs e hcn hce hres] at h
      exact absurd h (by simp)
    | ok ro =>
      by_cases hsucc : ∃ rg, ro = some rg ∧ container.isPrefixOf rg.startContainer = true
      · obtain ⟨rg, hro, hin⟩ := hsucc
        subst hro
        rw [vertFuel_success doc 1 st container isReverse r mayUseScroll i cs rg hcn hce hres
          hin] at h
        injection h with h2
        injection h2 with h3 h4
        rw [← h4]
        exact hpredS st rg
          (caretRangeFromPoint_collapsed doc st.root st.scrolled _ _ rg
            (fun f hf rg2 hrg2 => hnative f hf st.root st.scrolled _ _ rg2 hrg2) hres)
          hin
      · have hfail : ∀ rg, ro = some rg → container.isPrefixOf rg.startContainer = false := by
          intro rg hrg
          by_contra hb
          exact hsucc ⟨rg, hrg, by simpa using hb⟩
        cases mayUseScroll with
        | false =>
          rw [vertFuel_fail_false doc 1 st container isReverse r i cs ro hcn hce hres hfail] at h
          obtain ⟨ev2, hEv, _⟩ := withEvents_ok h
          rw [placeCaretAtHorizontalEdgeEv_rich_eq st container isReverse i cs hcn htf hce] at hEv
          injection hEv with h2
          injection h2 with h3 h4
          rw [← h4]
          exact hpredH st
        | true =>
          rw [show (1 : Nat) = 0 + 1 from rfl,
            vertFuel_fail_true doc 0 st container isReverse r i cs ro hcn hce hres hfail] at h
          obtain ⟨ev2, hIn, _⟩ := withEvents_ok h
          have hcnS : (st.scrollIntoView container isReverse).root.get? container
              = some (.elem i cs) := hcn
          cases hres2 : caretRangeFromPoint doc (st.scrollIntoView container isReverse).root
              (st.scrollIntoView container isReverse).scrolled (vertX r)
              (vertY i.rect isReverse r) with
          | error e =>
            rw [vertFuel_error doc 0 (st.scrollIntoView container isReverse) container isReverse
              r false i cs e hcnS hce hres2] at hIn
            exact absurd hIn (by simp)
          | ok ro2 =>
            by_cases hsucc2 : ∃ rg, ro2 = some rg ∧ container.isPrefixOf rg.startContainer = true
            · obtain ⟨rg, hro2, hin⟩ := hsucc2
              subst hro2
              rw [vertFuel_success doc 0 (st.scrollIntoView container isReverse) container
                isReverse r false i cs rg hcnS hce hres2 hin] at hIn
              injection hIn with h2
              injection h2 with h3 h4
              rw [← h4]
              exact hpredS _ rg
                (caretRangeFromPoint_collapsed doc _ _ _ _ rg
                  (fun f hf rg2 hrg2 => hnative f hf _ _ _ _ rg2 hrg2) hres2)
                hin
            · have hfail2 : ∀ rg, ro2 = some rg →
                  container.isPrefixOf rg.startContainer = false := by
                intro rg hrg
                by_contra hb
                exact hsucc2 ⟨rg, hrg, by simpa using hb⟩
              rw [vertFuel_fail_false doc 0 (st.scrollIntoView container isReverse) container
                isReverse r i cs ro2 hcnS hce hres2 hfail2] at hIn
              obtain ⟨ev3, hEv, _⟩ := withEvents_ok hIn
              exact hpart1 (st.scrollIntoView container isReverse) st1 rfl (by
                unfold placeCaretAtHorizontalEdgeEv at hEv
                cases hh : placeCaretAtHorizontalEdge (st.scrollIntoView container isReverse)
                    container isReverse with
                | error e => rw [hh] at hEv; exact absurd hEv (by simp)
                | ok pr =>
                  obtain ⟨u, st2⟩ := pr
                  rw [hh] at hEv
                  simp at hEv
                  rw [hEv.2])

/-- Witness for the amended C6: horizontal placement into the example rich
container leaves one collapsed selection inside it. -/
theorem placeCaret_selection_invariant_amended_witness :
    (placeCaretAtHorizontalEdge exRichSt [] true
      = .ok ((), { exRichSt with
          selection := [{ startContainer := [], startOffset := 0, endContainer := [],
                          endOffset := 0, clientRects := [] }],
          focused := some [] }))
    ∧ selectionOneCollapsedInside
        { exRichSt with
          selection := [{ startContainer := [], startOffset := 0, endContainer := [],
                          endOffset := 0, clientRects := [] }],
          focused := some [] } [] = true :=
  ⟨by rfl,
   (placeCaret_selection_invariant_amended exDocMiss exRichSt [] true none true
      ⟨"P", true, "", 0, 0, exRect⟩ [.text "hello"] (by rfl) (by rfl) (by rfl)
      (fun f hf => by simp [exDocMiss] at hf; subst hf; intro root sc x y rg h; cases h)).1
     _ (by rfl)⟩

/-- Two rewrites of the same path compose pointwise. -/
theorem modifyInfoAt_modifyInfoAt (p : DomPath) :
    ∀ (t : DomTree) (f g : ElemInfo → ElemInfo),
      modifyInfoAt (modifyInfoAt t p f) p g = modifyInfoAt t p (fun j => g (f j)) := by
  induction p with
  | nil => intro t f g; cases t <;> simp [modifyInfoAt]
  | cons k rest ih =>
    intro t f g
    cases t with
    | text s => simp [modifyInfoAt]
    | elem i cs =>
      simp only [modifyInfoAt]
      by_cases hk : k < cs.length
      · have h1 : (cs.set k (modifyInfoAt (cs[k]?.getD (.text "")) rest f))[k]?
            = some (modifyInfoAt (cs[k]?.getD (.text "")) rest f) := by
          simp [List.getElem?_set_self', hk]
        rw [h1]
        simp only [Option.getD_some]
        rw [List.set_set, ih]
      · have hge : cs.length ≤ k := by omega
        simp [List.set_eq_of_length_le hge, List.getElem?_eq_none hge]

/-- An idempotent field rewrite makes `modifyInfoAt` idempotent. -/
theorem modifyInfoAt_idem (t : DomTree) (p : DomPath) (f : ElemInfo → ElemInfo)
    (hf : ∀ j, f (f j) = f j) :
    modifyInfoAt (modifyInfoAt t p f) p f = modifyInfoAt t p f := by
  rw [modifyInfoAt_modifyInfoAt]
  congr 1
  funext j
  exact hf j

/-- The `placeCaretAtHorizontalEdge` is idempotent: replaying it from the
state it produced reproduces that state. -/
theorem placeCaretAtHorizontalEdge_idem (st : DomState) (container : DomPath) (isReverse : Bool)
    (st1 : DomState)
    (h : placeCaretAtHorizontalEdge st container isReverse = .ok ((), st1)) :
    placeCaretAtHorizontalEdge st1 container isReverse = .ok ((), st1) := by
  cases hcn : st.root.get? container with
  | none => simp [placeCaretAtHorizontalEdge, hcn] at h
  | some cNode =>
    cases cNode with
    | text s =>
      rw [placeCaretAtHorizontalEdge_plain_eq st container isReverse (.text s) hcn (by rfl)
        (by rfl)] at h
      injection h with h2
      injection h2 with h3 h4
      rw [← h4]
      rw [placeCaretAtHorizontalEdge_plain_eq (st.focusOn container) container isReverse
        (.text s) hcn (by rfl) (by rfl)]
      simp [DomState.focusOn]
    | elem i cs =>
      by_cases htf : isTextField (some i.tagName) = true
      · rw [placeCaretAtHorizontalEdge_input_eq st container isReverse i cs hcn htf] at h
        injection h with h2
        injection h2 with h3 h4
        rw [← h4]
        have hroot1 : (((st.focusOn container).setSelectionStart container
              (if isReverse then 0 else i.value.length)).setSelectionEnd container
              (if isReverse then 0 else i.value.length)).root
            = modifyInfoAt st.root container
                (fun j => { j with selectionStart := if isReverse then 0 else i.value.length,
                                   selectionEnd := if isReverse then 0 else i.value.length }) := by
          simp only [DomState.setSelectionStart, DomState.setSelectionEnd, DomState.focusOn]
          rw [modifyInfoAt_modifyInfoAt]
        have hcn1 : (((st.focusOn container).setSelectionStart container
              (if isReverse then 0 else i.value.length)).setSelectionEnd container
              (if isReverse then 0 else i.value.length)).root.get? container
            = some (.elem { i with selectionStart := if isReverse then 0 else i.value.length,
                                   selectionEnd := if isReverse then 0 else i.value.length } cs) := by
          rw [hroot1]
          exact get?_modifyInfoAt container st.root _ _ hcn
        rw [placeCaretAtHorizontalEdge_input_eq _ container isReverse _ cs hcn1 htf]
        simp only [DomState.setSelectionStart, DomState.setSelectionEnd, DomState.focusOn,
          modifyInfoAt_modifyInfoAt]
      · by_cases hce : i.contentEditable = true
        · rw [placeCaretAtHorizontalEdge_rich_eq st container isReverse i cs hcn
            (by simpa using htf) hce] at h
          injection h with h2
          injection h2 with h3 h4
          rw [← h4]
          exact placeCaretAtHorizontalEdge_rich_eq _ container isReverse i cs hcn
            (by simpa using htf) hce
        · rw [placeCaretAtHorizontalEdge_plain_eq st container isReverse (.elem i cs) hcn
            (by simpa using htf) (by simpa using hce)] at h
          injection h with h2
          injection h2 with h3 h4
          rw [← h4]
          rw [placeCaretAtHorizontalEdge_plain_eq (st.focusOn container) container isReverse
            (.elem i cs) hcn (by simpa using htf) (by simpa using hce)]
          simp [DomState.focusOn]

/-- A missing rectangle delegates regardless of the container. -/
theorem vertFuel_none (doc : DocEnv) (fuel : Nat) (st : DomState) (container : DomPath)
    (isReverse : Bool) (mayUseScroll : Bool) :
    placeCaretAtVerticalEdgeFuel doc fuel st container isReverse none mayUseScroll
      = placeCaretAtHorizontalEdgeEv st container isReverse := by
  simp [placeCaretAtVerticalEdgeFuel]

/-- Horizontal placement preserves the container's classification (tag
name and editability). -/
theorem placeCaretAtHorizontalEdge_root_class (st : DomState) (container : DomPath)
    (isReverse : Bool) (st1 : DomState) (nd : DomTree)
    (hcn : st.root.get? container = some nd)
    (h : placeCaretAtHorizontalEdge st container isReverse = .ok ((), st1)) :
    ∃ nd', st1.root.get? container = some nd'
      ∧ nd'.tagName? = nd.tagName? ∧ nd'.isContentEditable = nd.isContentEditable := by
  cases nd with
  | text s =>
    rw [placeCaretAtHorizontalEdge_plain_eq st container isReverse (.text s) hcn (by rfl)
      (by rfl)] at h
    injection h with h2
    injection h2 with h3 h4
    exact ⟨.text s, by rw [← h4]; exact hcn, rfl, rfl⟩
  | elem i cs =>
    by_cases htf : isTextField (some i.tagName) = true
    · rw [placeCaretAtHorizontalEdge_input_eq st container isReverse i cs hcn htf] at h
      injection h with h2
      injection h2 with h3 h4
      refine ⟨.elem { i with selectionStart := if isReverse then 0 else i.value.length,
                             selectionEnd := if isReverse then 0 else i.value.length } cs,
        ?_, rfl, rfl⟩
      rw [← h4]
      simp only [DomState.setSelectionStart, DomState.setSelectionEnd, DomState.focusOn,
        modifyInfoAt_modifyInfoAt]
      exact get?_modifyInfoAt container st.root _ _ hcn
    · by_cases hce : i.contentEditable = true
      · rw [placeCaretAtHorizontalEdge_rich_eq st container isReverse i cs hcn
          (by simpa using htf) hce] at h
        injection h with h2
        injection h2 with h3 h4
        exact ⟨.elem i cs, by rw [← h4]; exact hcn, rfl, rfl⟩
      · rw [placeCaretAtHorizontalEdge_plain_eq st container isReverse (.elem i cs) hcn
          (by simpa using htf) (by simpa using hce)] at h
        injection h with h2
        injection h2 with h3 h4
        exact ⟨.elem i cs, by rw [← h4]; exact hcn, rfl, rfl⟩

/-- C9: `placeCaretAtVerticalEdge` is idempotent — a second call with the
same document, container, direction and rectangle reproduces exactly the
state (hence the same collapsed selection) left by the first call.  Stated
for containers that are not simultaneously an INPUT/TEXTAREA and
content-editable: for that degenerate combination the fallback writes the
input's selection fields into the tree, which the abstract layout oracle
is allowed to observe. -/
theorem placeCaretAtVerticalEdge_idempotent (doc : DocEnv) (st : DomState) (container : DomPath)
    (isReverse : Bool) (rect : Option Rect) (ev1 : List Event) (st1 : DomState)
    (hsafe : ∀ i2 cs2, st.root.get? container = some (.elem i2 cs2) →
      i2.contentEditable = true → isTextField (some i2.tagName) = false)
    (h1 : placeCaretAtVerticalEdge doc st container isReverse rect true = .ok (ev1, st1)) :
    ∃ ev2, placeCaretAtVerticalEdge doc st1 container isReverse rect true = .ok (ev2, st1) := by
  unfold placeCaretAtVerticalEdge at h1 ⊢
  cases rect with
  | none =>
    rw [vertFuel_none] at h1
    rw [vertFuel_none]
    unfold placeCaretAtHorizontalEdgeEv at h1 ⊢
    cases hh : placeCaretAtHorizontalEdge st container isReverse with
    | error e => rw [hh] at h1; exact absurd h1 (by simp)
    | ok pr =>
      obtain ⟨u, st1'⟩ := pr
      rw [hh] at h1
      simp at h1
      have hh1 : placeCaretAtHorizontalEdge st container isReverse = .ok ((), st1) := by
        rw [hh, h1.2]
      rw [placeCaretAtHorizontalEdge_idem st container isReverse st1 hh1]
      exact ⟨[], rfl⟩
  | some r =>
    cases hcn : st.root.get? container with
    | none => simp [placeCaretAtVerticalEdgeFuel, hcn] at h1
    | some cNode =>
      by_cases hce : cNode.isContentEditable = true
      · cases cNode with
        | text s => simp [DomTree.isContentEditable] at hce
        | elem i cs =>
          have hcei : i.contentEditable = true := by simpa [DomTree.isContentEditable] using hce
          have htf : isTextField (some i.tagName) = false := hsafe i cs hcn hcei
          cases hres : caretRangeFromPoint doc st.root st.scrolled (vertX r)
              (vertY i.rect isReverse r) with
          | error e =>
            rw [vertFuel_error doc 1 st container isReverse r true i cs e hcn hcei hres] at h1
            exact absurd h1 (by simp)
          | ok ro =>
            by_cases hsucc : ∃ rg, ro = some rg ∧ container.isPrefixOf rg.startContainer = true
            · obtain ⟨rg, hro, hin⟩ := hsucc
              subst hro
              rw [vertFuel_success doc 1 st container isReverse r true i cs rg hcn hcei hres
                hin] at h1
              simp at h1
              have hcn1 : st1.root.get? container = some (.elem i cs) := by
                rw [← h1.2]; exact hcn
              have hres1 : caretRangeFromPoint doc st1.root st1.scrolled (vertX r)
                  (vertY i.rect isReverse r) = .ok (some rg) := by
                rw [← h1.2]; exact hres
              refine ⟨vertProbeEvents container (vertX r) (vertY i.rect isReverse r), ?_⟩
              rw [vertFuel_success doc 1 st1 container isReverse r true i cs rg hcn1 hcei hres1
                hin, ← h1.2]
            · have hfail : ∀ rg, ro = some rg → container.isPrefixOf rg.startContainer = false := by
                intro rg hrg
                by_contra hb
                exact hsucc ⟨rg, hrg, by simpa using hb⟩
              rw [show (1 : Nat) = 0 + 1 from rfl,
                vertFuel_fail_true doc 0 st container isReverse r i cs ro hcn hcei hres hfail] at h1
              obtain ⟨evA, hIn, _⟩ := withEvents_ok h1
              have hcnS : (st.scrollIntoView container isReverse).root.get? container
                  = some (.elem i cs) := hcn
              cases hres2 : caretRangeFromPoint doc (st.scrollIntoView container isReverse).root
                  (st.scrollIntoView container isReverse).scrolled (vertX r)
                  (vertY i.rect isReverse r) with
              | error e =>
                rw [vertFuel_error doc 0 (st.scrollIntoView container isReverse) container
                  isReverse r false i cs e hcnS hcei hres2] at hIn
                exact absurd hIn (by simp)
              | ok ro2 =>
                by_cases hsucc2 : ∃ rg, ro2 = some rg
                    ∧ container.isPrefixOf rg.startContainer = true
                · obtain ⟨rg2, hro2, hin2⟩ := hsucc2
                  subst hro2
                  rw [vertFuel_success doc 0 (st.scrollIntoView container isReverse) container
                    isReverse r false i cs rg2 hcnS hcei hres2 hin2] at hIn
                  simp at hIn
                  have hcn1 : st1.root.get? container = some (.elem i cs) := by
                    rw [← hIn.2]; exact hcn
                  have hres1 : caretRangeFromPoint doc st1.root st1.scrolled (vertX r)
                      (vertY i.rect isReverse r) = .ok (some rg2) := by
                    rw [← hIn.2]; exact hres2
                  refine ⟨vertProbeEvents container (vertX r) (vertY i.rect isReverse r), ?_⟩
                  rw [vertFuel_success doc 1 st1 container isReverse r true i cs rg2 hcn1 hcei
                    hres1 hin2, ← hIn.2]
                · have hfail2 : ∀ rg, ro2 = some rg →
                      container.isPrefixOf rg.startContainer = false := by
                    intro rg hrg
                    by_contra hb
                    exact hsucc2 ⟨rg, hrg, by simpa using hb⟩
                  rw [vertFuel_fail_false doc 0 (st.scrollIntoView container isReverse) container
                    isReverse r i cs ro2 hcnS hcei hres2 hfail2] at hIn
                  obtain ⟨evB, hEv, _⟩ := withEvents_ok hIn
                  have hh1 : placeCaretAtHorizontalEdge (st.scrollIntoView container isReverse)
                      container isReverse = .ok ((), st1) := by
                    unfold placeCaretAtHorizontalEdgeEv at hEv
                    cases hh : placeCaretAtHorizontalEdge (st.scrollIntoView container isReverse)
                        container isReverse with
                    | error e => rw [hh] at hEv; exact absurd hEv (by simp)
                    | ok pr =>
                      obtain ⟨u, st2⟩ := pr
                      rw [hh] at hEv
                      simp at hEv
                      rw [hEv.2]
                  have hst1 : ({ st.scrollIntoView container isReverse with
                      selection := [{ startContainer := container,
                                      startOffset := if isReverse then 0 else cs.length,
                                      endContainer := container,
                                      endOffset := if isReverse then 0 else cs.length,
                                      clientRects := [] }],
                      focused := some container } : DomState) = st1 := by
                    have h2 := hh1
                    rw [placeCaretAtHorizontalEdge_rich_eq (st.scrollIntoView container isReverse)
                      container isReverse i cs hcnS htf hcei] at h2
                    simpa using h2
                  have hcn1 : st1.root.get? container = some (.elem i cs) := by
                    rw [← hst1]; exact hcn
                  have hres2b : caretRangeFromPoint doc st1.root st1.scrolled (vertX r)
                      (vertY i.rect isReverse r) = .ok ro2 := by
                    rw [← hst1]; exact hres2
                  have hscr : st1.scrollIntoView container isReverse = st1 := by
                    rw [← hst1]; rfl
                  have hidem : placeCaretAtHorizontalEdge st1 container isReverse
                      = .ok ((), st1) :=
                    placeCaretAtHorizontalEdge_idem _ container isReverse st1 hh1
                  refine ⟨(vertProbeEvents container (vertX r) (vertY i.rect isReverse r)
                      ++ [Event.scrollIntoView container isReverse])
                      ++ (vertProbeEvents container (vertX r) (vertY i.rect isReverse r)
                      ++ []), ?_⟩
                  rw [show (1 : Nat) = 0 + 1 from rfl,
                    vertFuel_fail_true doc 0 st1 container isReverse r i cs ro2 hcn1 hcei hres2b
                      hfail2, hscr,
                    vertFuel_fail_false doc 0 st1 container isReverse r i cs ro2 hcn1 hcei hres2b
                      hfail2]
                  unfold placeCaretAtHorizontalEdgeEv
                  rw [hidem]
                  simp [withEvents]
      · rw [vertFuel_delegate doc 1 st container isReverse (some r) true cNode hcn
          (Or.inr (by simpa using hce))] at h1
        unfold placeCaretAtHorizontalEdgeEv at h1
        cases hh : placeCaretAtHorizontalEdge st container isReverse with
        | error e => rw [hh] at h1; exact absurd h1 (by simp)
        | ok pr =>
          obtain ⟨u, st1'⟩ := pr
          rw [hh] at h1
          simp at h1
          have hh1 : placeCaretAtHorizontalEdge st container isReverse = .ok ((), st1) := by
            rw [hh, h1.2]
          obtain ⟨nd', hcn', ht', hc'⟩ :=
            placeCaretAtHorizontalEdge_root_class st container isReverse st1 cNode hcn hh1
          rw [vertFuel_delegate doc 1 st1 container isReverse (some r) true nd' hcn'
            (Or.inr (by rw [hc']; simpa using hce))]
          unfold placeCaretAtHorizontalEdgeEv
          rw [placeCaretAtHorizontalEdge_idem st container isReverse st1 hh1]
          exact ⟨[], rfl⟩

/-- Witness for C9: a hitting oracle at the example rich state; the second
call reproduces the state of the first. -/
theorem placeCaretAtVerticalEdge_idempotent_witness :
    (placeCaretAtVerticalEdge (⟨some (fun _ _ _ _ => some ⟨[0], 1, [0], 1, []⟩), none⟩ : DocEnv)
        exRichSt [] false (some exCaretRect) true
      = .ok (vertProbeEvents [] (vertX exCaretRect) (vertY exRect false exCaretRect),
             { exRichSt with selection := [⟨[0], 1, [0], 1, []⟩], focused := some [] }))
    ∧ ∃ ev2, placeCaretAtVerticalEdge (⟨some (fun _ _ _ _ => some ⟨[0], 1, [0], 1, []⟩), none⟩
          : DocEnv)
        { exRichSt with selection := [⟨[0], 1, [0], 1, []⟩], focused := some [] } [] false
        (some exCaretRect) true
      = .ok (ev2, { exRichSt with selection := [⟨[0], 1, [0], 1, []⟩], focused := some [] }) :=
  ⟨by rfl,
   placeCaretAtVerticalEdge_idempotent _ exRichSt [] false (some exCaretRect) _ _
     (fun i2 cs2 h _ => by
       simp [exRichSt, exRichRoot, DomTree.get?] at h
       rw [← h.1]
       rfl)
     (by rfl)⟩
